import Mathlib

/-!
Verification of the kinescope-dl downloader (src/kinescope/downloader.py).

The development shallowly embeds the parts of VideoDownloader that the
claims are about: the output verifier (_verify_output_or_raise), the
download() orchestrator with its HLS/DASH fallback, the HLS variant
listing and selection (get_hls_variants, _select_hls_variant_urls), the
segment retriever (_fetch_segment, _fetch_segments), the DASH
segment-URL lookup (_get_segments_urls) and the subprocess invocations
of the media assembler (_merge_tracks, _decrypt_video,
_download_hls_via_ffmpeg).

External collaborators (the HTTP session, the filesystem, subprocesses,
ffprobe) are modelled as explicit environment values: each fallible step
of the Python code becomes one environment field holding the outcome the
collaborator would produce, and the control flow around those steps is
translated branch by branch from the source.
-/

/-- Python exception kinds that the downloader raises or propagates.
Covers the exception classes imported in downloader.py lines 25-31
together with the builtin exceptions its code paths produce. -/
inductive Exc where
  | videoNotFound
  | invalidResolution
  | segmentDownload (uri : String)
  | subprocess (code : Int) (tail : List String)
  | ffmpegNotFound
  | mp4decryptNotFound
  | httpError
  | validation
  | indexError
  | valueError
deriving DecidableEq

/-- Stream and container metadata that ffprobe reports for a finished
file: presence of a video stream, presence of an audio stream, and the
container duration in seconds (downloader.py lines 420-428). -/
structure ProbeMeta where
  hasVideo : Bool
  hasAudio : Bool
  duration : ℚ
deriving DecidableEq

/-- Outcome of looking for and running ffprobe on the produced file:
the binary may be absent (lines 405-408), it may fail to run
(lines 410-418), or it reports metadata. -/
inductive ProbeResult where
  | unavailable
  | probeFailed
  | meta (m : ProbeMeta)
deriving DecidableEq

/-- The constant 0.5 of the duration check in line 430, given as a
normalised rational so that concrete runs reduce in the kernel. -/
def half : ℚ := ⟨1, 2, by decide, by decide⟩

theorem half_eq : half = 1 / 2 := by
  norm_num [half, Rat.mk'_eq_divInt, Rat.divInt_eq_div]

/-- _verify_output_or_raise (downloader.py lines 404-435) after the
probe outcome is known.  Returns the raised-or-ok outcome together with
whether the file was deleted.  When ffprobe is missing or fails to run,
validation is skipped with a warning and the file is accepted.  When
metadata was obtained, the file is rejected, deleted and a RuntimeError
raised unless it has a video stream, duration above 0.5 and, when
require_audio is set, an audio stream (line 430). -/
def verifyOutputOrRaise (requireAudio : Bool) (p : ProbeResult) :
    Except Exc Unit × Bool :=
  match p with
  | .unavailable => (.ok (), false)
  | .probeFailed => (.ok (), false)
  | .meta m =>
    if m.hasVideo = false ∨ m.duration ≤ half ∨
        (requireAudio = true ∧ m.hasAudio = false) then
      (.error .validation, true)
    else
      (.ok (), false)

/-- The container duration 0.3 used by the specification scenario of a
too-short output file. -/
def durThreeTenths : ℚ := ⟨3, 10, by decide, by decide⟩

theorem durThreeTenths_eq : durThreeTenths = 3 / 10 := by
  norm_num [durThreeTenths, Rat.mk'_eq_divInt, Rat.divInt_eq_div]

/-- Claim C9: when the prober is available and runs successfully, the
verifier accepts the assembled file iff it has a video stream, its
duration exceeds 0.5 seconds and, when audio is required, an audio
stream; a rejected file is deleted and a validation error raised; an
absent prober is only a warning and the file is accepted unverified. -/
theorem verify_output_accepts_iff (requireAudio : Bool) (m : ProbeMeta) :
    ((verifyOutputOrRaise requireAudio (.meta m)).1 = .ok () ↔
      (m.hasVideo = true ∧ half < m.duration ∧
        (requireAudio = true → m.hasAudio = true))) ∧
    ((verifyOutputOrRaise requireAudio (.meta m)).1 = .error .validation ↔
      ¬ (m.hasVideo = true ∧ half < m.duration ∧
        (requireAudio = true → m.hasAudio = true))) ∧
    ((verifyOutputOrRaise requireAudio (.meta m)).2 = true ↔
      (verifyOutputOrRaise requireAudio (.meta m)).1 = .error .validation) ∧
    verifyOutputOrRaise requireAudio .unavailable = (.ok (), false) ∧
    verifyOutputOrRaise true
        (.meta ⟨true, true, durThreeTenths⟩) = (.error .validation, true) := by
  have hdur : durThreeTenths ≤ half := by
    rw [durThreeTenths_eq, half_eq]; norm_num
  by_cases hc : m.hasVideo = false ∨ m.duration ≤ half ∨
      (requireAudio = true ∧ m.hasAudio = false)
  · constructor
    · simp only [verifyOutputOrRaise, if_pos hc]
      constructor
      · intro h; exact absurd h (by simp)
      · intro ⟨hv, hd, ha⟩
        rcases hc with h | h | ⟨hr, h⟩
        · rw [hv] at h; exact absurd h (by simp)
        · exact absurd hd (not_lt.mpr h)
        · rw [ha hr] at h; exact absurd h (by simp)
    · refine ⟨?_, ?_, ?_, ?_⟩
      · simp only [verifyOutputOrRaise, if_pos hc]
        constructor
        · intro _
          intro ⟨hv, hd, ha⟩
          rcases hc with h | h | ⟨hr, h⟩
          · rw [hv] at h; exact absurd h (by simp)
          · exact absurd hd (not_lt.mpr h)
          · rw [ha hr] at h; exact absurd h (by simp)
        · intro _; trivial
      · simp [verifyOutputOrRaise, if_pos hc]
      · rfl
      · simp [verifyOutputOrRaise, hdur]
  · push_neg at hc
    obtain ⟨hv, hd, ha⟩ := hc
    have hcond : ¬ (m.hasVideo = false ∨ m.duration ≤ half ∨
        (requireAudio = true ∧ m.hasAudio = false)) := by
      push_neg
      exact ⟨hv, hd, ha⟩
    refine ⟨?_, ?_, ?_, ?_, ?_⟩
    · simp only [verifyOutputOrRaise, if_neg hcond]
      constructor
      · intro _
        refine ⟨by simpa using hv, lt_of_not_le (by simpa using hd), ?_⟩
        intro hr
        simpa using ha hr
      · intro _; trivial
    · simp only [verifyOutputOrRaise, if_neg hcond]
      constructor
      · intro h; exact absurd h (by simp)
      · intro h
        exact absurd ⟨by simpa using hv, lt_of_not_le (by simpa using hd),
          fun hr => by simpa using ha hr⟩ h
    · simp only [verifyOutputOrRaise, if_neg hcond]
      simp
    · rfl
    · simp [verifyOutputOrRaise, hdur]

deriving instance DecidableEq for Except

/-- The two delivery protocols the orchestrator switches between. -/
inductive Protocol where
  | hls
  | dash
deriving DecidableEq

/-- Steps of one DASH attempt that download() performs, recorded in
order so that theorems can speak about which actions ran. -/
inductive Step where
  | getResolutions
  | licensePost
  | segmentsUrls
  | fetchVideo
  | fetchAudio
  | decryptVideoStep
  | decryptAudioStep
  | mergeStep
  | renameVideoOnly
  | verifyOutput
  | deleteTmp
  | renameFinal
deriving DecidableEq

/-- Result of one protocol leg inside download(): the leg succeeded and
renamed the temp file into place, or it raised before producing the
temp output, or the temp output was produced but the verifier rejected
and deleted it. -/
inductive LegResult where
  | ok (p : ProbeResult)
  | errBefore (ex : Exc)
  | errVerify (p : ProbeResult)
deriving DecidableEq

/-- Collaborator outcomes for one HLS leg of download(): the variant
selection (_select_hls_variant_urls with its HTTP master fetch, called
at lines 445 and 513), the ffmpeg muxer run (_download_hls_via_ffmpeg,
lines 446 and 514), and the ffprobe outcome on the produced file. -/
structure HlsLegEnv where
  select : Except Exc Unit
  ffmpeg : Except Exc Unit
  probe : ProbeResult
deriving DecidableEq

/-- Collaborator outcomes for the DASH block of download()
(lines 457-507): whether get_resolutions finds a list, whether the
manifest declares content protection, the license POST outcome, the
_get_segments_urls outcome, the video and audio segment fetch outcomes,
whether an audio segment list exists, presence of the two external
binaries, and the ffprobe outcome on the produced file. -/
structure DashLegEnv where
  resAvailable : Bool
  protection : Bool
  license : Except Exc Unit
  segUrls : Except Exc Unit
  videoFetch : Except Exc Unit
  hasAudio : Bool
  audioFetch : Except Exc Unit
  mp4decryptPresent : Bool
  ffmpegPresent : Bool
  probe : ProbeResult
deriving DecidableEq

/-- One HLS leg of download() (lines 444-450 for the primary attempt,
lines 513-516 for the fallback): select variant URLs, run the ffmpeg
muxer into the temp file, then verify with require_audio left at its
default True; on verifier acceptance the temp file is renamed. -/
def hlsLeg (e : HlsLegEnv) : LegResult :=
  match e.select with
  | .error ex => .errBefore ex
  | .ok () =>
    match e.ffmpeg with
    | .error ex => .errBefore ex
    | .ok () =>
      match (verifyOutputOrRaise true e.probe).1 with
      | .error _ => .errVerify e.probe
      | .ok () => .ok e.probe

/-- Tail of a DASH leg once the temp file exists (lines 504-506):
verify with require_audio left at its default True, recording the
deletion on rejection, and rename into place on acceptance. -/
def finishVerify (s : List Step) (p : ProbeResult) : LegResult × List Step :=
  let r := verifyOutputOrRaise true p
  let s6 := s ++ [Step.verifyOutput] ++ (if r.2 then [Step.deleteTmp] else [])
  match r.1 with
  | .error _ => (.errVerify p, s6)
  | .ok () => (.ok p, s6 ++ [Step.renameFinal])

/-- The DASH block of download() (lines 457-507), translated branch by
branch.  When no resolution was passed, get_resolutions must yield one
(lines 458-462, raising InvalidResolution otherwise); _get_license_key
POSTs to the license endpoint only when the manifest declares content
protection (lines 244-261); then segment URL resolution, the video
fetch, the audio fetch when an audio list exists, decryption when a key
was obtained (raising only when the mp4decrypt binary is missing,
lines 230-242), merging when audio exists (raising only when the ffmpeg
binary is missing, lines 111-125) or renaming the video file into place
otherwise (line 502), and finally verification and the rename. -/
def dashLeg (resolutionGiven : Bool) (e : DashLegEnv) : LegResult × List Step :=
  let s0 : List Step := if resolutionGiven then [] else [Step.getResolutions]
  if !resolutionGiven && !e.resAvailable then
    (.errBefore .invalidResolution, s0)
  else
    let s1 := s0 ++ if e.protection then [Step.licensePost] else []
    match (if e.protection then e.license else Except.ok ()) with
    | .error ex => (.errBefore ex, s1)
    | .ok () =>
      let s2 := s1 ++ [Step.segmentsUrls]
      match e.segUrls with
      | .error ex => (.errBefore ex, s2)
      | .ok () =>
        let s3 := s2 ++ [Step.fetchVideo]
        match e.videoFetch with
        | .error ex => (.errBefore ex, s3)
        | .ok () =>
          let s4 := s3 ++ if e.hasAudio then [Step.fetchAudio] else []
          match (if e.hasAudio then e.audioFetch else Except.ok ()) with
          | .error ex => (.errBefore ex, s4)
          | .ok () =>
            if e.protection && !e.mp4decryptPresent then
              (.errBefore .mp4decryptNotFound, s4 ++ [Step.decryptVideoStep])
            else
              let s5 := s4 ++
                (if e.protection then
                  [Step.decryptVideoStep] ++
                    (if e.hasAudio then [Step.decryptAudioStep] else [])
                else [])
              if e.hasAudio then
                if !e.ffmpegPresent then
                  (.errBefore .ffmpegNotFound, s5 ++ [Step.mergeStep])
                else
                  finishVerify (s5 ++ [Step.mergeStep]) e.probe
              else
                finishVerify (s5 ++ [Step.renameVideoOnly]) e.probe

/-- Environment of one download() call: the protocol active on entry
(line 443), whether a resolution argument was passed, the primary HLS
leg outcomes, the outcome of re-fetching the DASH manifest on HLS
failure (line 455), the DASH leg outcomes, and the fallback HLS leg
outcomes (lines 513-516). -/
structure DlEnv where
  primary : Protocol
  resolutionGiven : Bool
  hls1 : HlsLegEnv
  mpdRefetch : Except Exc Unit
  dash : DashLegEnv
  hls2 : HlsLegEnv
deriving DecidableEq

/-- Observable outcome of one download() call: the protocol legs
entered in order, the returned-or-raised outcome (carrying, on success,
the probe result the verifier accepted for the finalised file), and
whether a file was placed at the final output path. -/
structure DlResult where
  trace : List Protocol
  outcome : Except Exc ProbeResult
  finalExists : Bool
deriving DecidableEq

/-- The DASH block together with the unconditional HLS fallback of its
exception handler (lines 457-518): any exception in the DASH block,
verification failure included, switches to HLS and runs the HLS leg
once more; a failure of that leg propagates to the caller. -/
def downloadDashPhase (env : DlEnv) (pre : List Protocol) : DlResult :=
  match (dashLeg env.resolutionGiven env.dash).1 with
  | .ok p => ⟨pre ++ [.dash], .ok p, true⟩
  | .errBefore _ =>
    match hlsLeg env.hls2 with
    | .ok p => ⟨pre ++ [.dash, .hls], .ok p, true⟩
    | .errBefore ex => ⟨pre ++ [.dash, .hls], .error ex, false⟩
    | .errVerify _ => ⟨pre ++ [.dash, .hls], .error .validation, false⟩
  | .errVerify _ =>
    match hlsLeg env.hls2 with
    | .ok p => ⟨pre ++ [.dash, .hls], .ok p, true⟩
    | .errBefore ex => ⟨pre ++ [.dash, .hls], .error ex, false⟩
    | .errVerify _ => ⟨pre ++ [.dash, .hls], .error .validation, false⟩

/-- download() (lines 437-518).  With HLS active on entry, the primary
HLS leg runs inside a try whose handler catches every exception,
re-fetches the DASH manifest and proceeds with the DASH block; with
DASH active on entry the DASH block runs directly. -/
def download (env : DlEnv) : DlResult :=
  match env.primary with
  | .dash => downloadDashPhase env []
  | .hls =>
    match hlsLeg env.hls1 with
    | .ok p => ⟨[.hls], .ok p, true⟩
    | .errBefore _ =>
      match env.mpdRefetch with
      | .error ex => ⟨[.hls], .error ex, false⟩
      | .ok () => downloadDashPhase env [.hls]
    | .errVerify _ =>
      match env.mpdRefetch with
      | .error ex => ⟨[.hls], .error ex, false⟩
      | .ok () => downloadDashPhase env [.hls]

/-- The retry policy _init_http installs on the shared HTTP session
(downloader.py lines 95-99): 5 retries with backoff 0.5 on the listed
status codes, for GET and POST alike.  Every HTTP call of the
downloader, the license POST included, goes through this session. -/
structure RetryPolicy where
  total : ℕ
  backoffFactor : ℚ
  statusForcelist : List ℕ
  allowedMethods : List String
deriving DecidableEq

/-- The concrete policy value of _init_http. -/
def initHttpRetry : RetryPolicy :=
  { total := 5
    backoffFactor := half
    statusForcelist := [429, 500, 502, 503, 504]
    allowedMethods := ["GET", "POST"] }

/-- Probe metadata of a structurally fine file whose duration 0.3 is
below the 0.5 floor, so the verifier rejects it. -/
def rejectedMeta : ProbeMeta := ⟨true, true, durThreeTenths⟩

/-- A download() environment in which every pipeline leg fails: the
primary HLS leg produces a file the verifier rejects, the DASH block
finds no resolutions, and the fallback HLS variant selection fails. -/
def envFullFailure : DlEnv :=
  { primary := .hls
    resolutionGiven := false
    hls1 := ⟨.ok (), .ok (), .meta rejectedMeta⟩
    mpdRefetch := .ok ()
    dash := ⟨false, false, .ok (), .ok (), .ok (), false, .ok (), true, true, .unavailable⟩
    hls2 := ⟨.error .httpError, .ok (), .unavailable⟩ }

/-- A download() environment whose active protocol is DASH with a
content-protected manifest and a failing license endpoint, and whose
HLS fallback fails as well. -/
def envLicenseFail : DlEnv :=
  { primary := .dash
    resolutionGiven := true
    hls1 := ⟨.ok (), .ok (), .unavailable⟩
    mpdRefetch := .ok ()
    dash := ⟨true, true, .error .httpError, .ok (), .ok (), true, .ok (), true, true, .unavailable⟩
    hls2 := ⟨.error .httpError, .ok (), .unavailable⟩ }

/-- Claim C1 counterexample: the primary HLS leg produces a temp file,
the verifier rejects it, and download() nevertheless transitions to the
DASH protocol instead of terminating — the whole HLS try block,
verification included, is covered by the fallback handler
(lines 443-455). -/
theorem verify_reject_falls_back_cex :
    hlsLeg envFullFailure.hls1 = .errVerify (.meta rejectedMeta) ∧
    (verifyOutputOrRaise true (.meta rejectedMeta)).1 = .error .validation ∧
    (download envFullFailure).trace = [.hls, .dash, .hls] ∧
    Protocol.dash ∈ (download envFullFailure).trace := by
  decide

/-- Claim C4 counterexample: with HLS primary, a forced failure of the
primary HLS pipeline followed by a forced failure of the DASH fallback
pipeline makes download() re-enter the HLS pipeline a second time
(lines 509-518) rather than terminating directly. -/
theorem fallback_reenters_hls_cex :
    (download envFullFailure).trace = [.hls, .dash, .hls] ∧
    (download envFullFailure).trace.count Protocol.hls = 2 ∧
    (download envFullFailure).outcome = .error .httpError := by
  decide

/-- Claim C2 counterexample: with DASH active and the license POST
failing, download() does attempt the HLS fallback (the except handler
at line 509 catches every DASH exception), there is no LicenseError
kind among the raised errors, and the session retry policy of
_init_http does retry a 500 POST at the HTTP layer. -/
theorem license_failure_cex :
    envLicenseFail.dash.protection = true ∧
    envLicenseFail.dash.license = .error .httpError ∧
    (download envLicenseFail).trace = [.dash, .hls] ∧
    Protocol.hls ∈ (download envLicenseFail).trace ∧
    (download envLicenseFail).outcome = .error .httpError ∧
    (download envLicenseFail).finalExists = false ∧
    500 ∈ initHttpRetry.statusForcelist ∧
    "POST" ∈ initHttpRetry.allowedMethods := by
  decide

/-- Whether a leg result is the success case. -/
def legOk : LegResult → Bool
  | .ok _ => true
  | .errBefore _ => false
  | .errVerify _ => false

/-- Number of adjacent transitions from protocol a to protocol b in a
trace of entered legs. -/
def edgeCount (a b : Protocol) : List Protocol → ℕ
  | x :: y :: t => (if x = a ∧ y = b then 1 else 0) + edgeCount a b (y :: t)
  | _ => 0

theorem verify_ok_requires_audio (m : ProbeMeta)
    (h : (verifyOutputOrRaise true (.meta m)).1 = Except.ok ()) :
    m.hasAudio = true := by
  by_contra hna
  have hna2 : m.hasAudio = false := by simpa using hna
  have hc : m.hasVideo = false ∨ m.duration ≤ half ∨
      (True ∧ m.hasAudio = false) := Or.inr (Or.inr ⟨trivial, hna2⟩)
  simp only [verifyOutputOrRaise] at h
  rw [if_pos hc] at h
  exact absurd h (by simp)

theorem finishVerify_ok (s : List Step) (q p : ProbeResult)
    (h : (finishVerify s q).1 = LegResult.ok p) :
    p = q ∧ (verifyOutputOrRaise true q).1 = Except.ok () := by
  simp only [finishVerify] at h
  split at h
  next heq => exact absurd h (by simp)
  next heq =>
    refine ⟨?_, heq⟩
    have := h
    simp at this
    exact this.symm

theorem hlsLeg_ok_probe (e : HlsLegEnv) (p : ProbeResult)
    (h : hlsLeg e = LegResult.ok p) :
    p = e.probe ∧ (verifyOutputOrRaise true e.probe).1 = Except.ok () := by
  unfold hlsLeg at h
  split at h
  · exact absurd h (by simp)
  · split at h
    · exact absurd h (by simp)
    · split at h
      next heq => exact absurd h (by simp)
      next heq =>
        refine ⟨?_, heq⟩
        have := h
        simp at this
        exact this.symm

theorem dashLeg_ok_probe (rg : Bool) (e : DashLegEnv) (p : ProbeResult)
    (h : (dashLeg rg e).1 = LegResult.ok p) :
    p = e.probe ∧ (verifyOutputOrRaise true e.probe).1 = Except.ok () := by
  simp only [dashLeg] at h
  repeat' split at h
  all_goals simp at h
  all_goals exact finishVerify_ok _ _ _ h

theorem downloadDashPhase_outcome_ok (env : DlEnv) (pre : List Protocol)
    (p : ProbeResult)
    (h : (downloadDashPhase env pre).outcome = Except.ok p) :
    (dashLeg env.resolutionGiven env.dash).1 = LegResult.ok p ∨
      hlsLeg env.hls2 = LegResult.ok p := by
  unfold downloadDashPhase at h
  repeat' split at h
  all_goals simp_all

theorem download_outcome_ok (env : DlEnv) (p : ProbeResult)
    (h : (download env).outcome = Except.ok p) :
    hlsLeg env.hls1 = LegResult.ok p ∨
      (dashLeg env.resolutionGiven env.dash).1 = LegResult.ok p ∨
      hlsLeg env.hls2 = LegResult.ok p := by
  cases hp : env.primary with
  | dash =>
    simp only [download, hp] at h
    rcases downloadDashPhase_outcome_ok env [] p h with h1 | h1
    · exact Or.inr (Or.inl h1)
    · exact Or.inr (Or.inr h1)
  | hls =>
    cases h1 : hlsLeg env.hls1 with
    | ok q =>
      simp only [download, hp, h1] at h
      simp at h
      subst h
      exact Or.inl rfl
    | errBefore ex =>
      simp only [download, hp, h1] at h
      cases hr : env.mpdRefetch with
      | error ex2 => rw [hr] at h; simp at h
      | ok u =>
        rw [hr] at h
        rcases downloadDashPhase_outcome_ok env [Protocol.hls] p h with h2 | h2
        · exact Or.inr (Or.inl h2)
        · exact Or.inr (Or.inr h2)
    | errVerify q =>
      simp only [download, hp, h1] at h
      cases hr : env.mpdRefetch with
      | error ex2 => rw [hr] at h; simp at h
      | ok u =>
        rw [hr] at h
        rcases downloadDashPhase_outcome_ok env [Protocol.hls] p h with h2 | h2
        · exact Or.inr (Or.inl h2)
        · exact Or.inr (Or.inr h2)

theorem download_ok_verified (env : DlEnv) (p : ProbeResult)
    (h : (download env).outcome = Except.ok p) :
    (verifyOutputOrRaise true p).1 = Except.ok () := by
  rcases download_outcome_ok env p h with h1 | h1 | h1
  · have hh := hlsLeg_ok_probe env.hls1 p h1
    rw [hh.1]; exact hh.2
  · have hh := dashLeg_ok_probe env.resolutionGiven env.dash p h1
    rw [hh.1]; exact hh.2
  · have hh := hlsLeg_ok_probe env.hls2 p h1
    rw [hh.1]; exact hh.2

/-- Claim C10: every verification call inside download() leaves
require_audio at its default True (lines 448, 504, 515 all call
_verify_output_or_raise with one argument), so whenever the prober runs
successfully on the finalised file its metadata shows an audio stream;
and a DASH attempt without an audio segment list, whose video-only file
was renamed into place (line 502), is rejected and deleted by the
verifier when the probe reports the missing audio stream. -/
theorem download_requires_audio (env : DlEnv) (m : ProbeMeta) (rg : Bool)
    (e : DashLegEnv) :
    ((download env).outcome = Except.ok (.meta m) → m.hasAudio = true) ∧
    (e.hasAudio = false → e.probe = .meta m → m.hasAudio = false →
      (rg = true ∨ e.resAvailable = true) →
      (e.protection = true → e.license = Except.ok () ∧ e.mp4decryptPresent = true) →
      e.segUrls = Except.ok () → e.videoFetch = Except.ok () →
      (dashLeg rg e).1 = .errVerify (.meta m) ∧
      Step.renameVideoOnly ∈ (dashLeg rg e).2 ∧
      Step.deleteTmp ∈ (dashLeg rg e).2) := by
  constructor
  · intro h
    exact verify_ok_requires_audio m (download_ok_verified env _ h)
  · intro hna hpr hma hres hprot hseg hvid
    have hc1 : (!rg && !e.resAvailable) = false := by
      rcases hres with h | h <;> simp [h]
    have hverify : verifyOutputOrRaise true (.meta m) =
        (.error .validation, true) := by
      simp [verifyOutputOrRaise, hma]
    cases hP : e.protection with
    | false =>
      simp [dashLeg, finishVerify, hc1, hP, hseg, hvid, hna, hverify, hpr]
    | true =>
      obtain ⟨hlic, hdec⟩ := hprot hP
      simp [dashLeg, finishVerify, hc1, hP, hseg, hvid, hna, hverify, hpr,
        hlic, hdec]

/-- Claim C1 as amended: a verification failure triggers the same
cross-protocol fallback as any other exception when it happens in the
primary HLS leg or in the DASH block, because those verifier calls sit
inside the try blocks of lines 443-455 and 457-518; only a verification
failure in the final fallback HLS leg (line 515) is fatal for the whole
download() call, and no verification failure ever finalises the file. -/
theorem verify_failure_fallback (env : DlEnv) (p q : ProbeResult)
    (pre : List Protocol) :
    (env.primary = Protocol.hls → hlsLeg env.hls1 = LegResult.errVerify p →
      env.mpdRefetch = Except.ok () →
      Protocol.dash ∈ (download env).trace) ∧
    ((dashLeg env.resolutionGiven env.dash).1 = LegResult.errVerify p →
      (downloadDashPhase env pre).trace = pre ++ [Protocol.dash, Protocol.hls]) ∧
    ((dashLeg env.resolutionGiven env.dash).1 = LegResult.errVerify p →
      hlsLeg env.hls2 = LegResult.errVerify q →
      (downloadDashPhase env pre).outcome = Except.error Exc.validation ∧
      (downloadDashPhase env pre).finalExists = false) := by
  refine ⟨?_, ?_, ?_⟩
  · intro hp h1 hr
    cases hd : (dashLeg env.resolutionGiven env.dash).1 <;>
      cases h2 : hlsLeg env.hls2 <;>
      simp [download, downloadDashPhase, hp, h1, hr, hd, h2]
  · intro hd
    cases h2 : hlsLeg env.hls2 <;>
      simp [downloadDashPhase, hd, h2]
  · intro hd h2
    simp [downloadDashPhase, hd, h2]

/-- Claim C2 as amended: with DASH active and the manifest protected, a
failing license request aborts the DASH attempt with the propagated
transport error (there is no LicenseError kind; the downloader issues
exactly one license POST, although the session retry policy retries a
500 response at the HTTP layer), download() then attempts the HLS
fallback once, and a file appears at the final output path only if that
fallback succeeds. -/
theorem license_failure_dash_behavior (env : DlEnv) (ex : Exc)
    (hp : env.primary = Protocol.dash)
    (hres : env.resolutionGiven = true)
    (hprot : env.dash.protection = true)
    (hlic : env.dash.license = Except.error ex) :
    (dashLeg env.resolutionGiven env.dash).1 = .errBefore ex ∧
    List.count Step.licensePost (dashLeg env.resolutionGiven env.dash).2 = 1 ∧
    (download env).trace = [Protocol.dash, Protocol.hls] ∧
    ((download env).finalExists = true ↔
      ∃ p, hlsLeg env.hls2 = LegResult.ok p) ∧
    ((∀ p, hlsLeg env.hls2 ≠ LegResult.ok p) →
      (∃ ex2, (download env).outcome = Except.error ex2) ∧
      (download env).finalExists = false) := by
  have hdl : dashLeg env.resolutionGiven env.dash =
      (.errBefore ex, [Step.licensePost]) := by
    simp [dashLeg, hres, hprot, hlic]
  refine ⟨by simp [hdl], by simp [hdl], ?_, ?_, ?_⟩
  · cases h2 : hlsLeg env.hls2 <;>
      simp [download, downloadDashPhase, hp, hdl, h2]
  · cases h2 : hlsLeg env.hls2 <;>
      simp [download, downloadDashPhase, hp, hdl, h2]
  · intro hfb
    cases h2 : hlsLeg env.hls2 with
    | ok p => exact absurd h2 (hfb p)
    | errBefore ex2 => simp [download, downloadDashPhase, hp, hdl, h2]
    | errVerify p => simp [download, downloadDashPhase, hp, hdl, h2]

/-- Witness for the amended C2 theorem at the concrete environment
envLicenseFail. -/
theorem license_failure_dash_behavior_witness :
    (dashLeg envLicenseFail.resolutionGiven envLicenseFail.dash).1 =
      .errBefore .httpError ∧
    List.count Step.licensePost
      (dashLeg envLicenseFail.resolutionGiven envLicenseFail.dash).2 = 1 ∧
    (download envLicenseFail).trace = [Protocol.dash, Protocol.hls] ∧
    ((download envLicenseFail).finalExists = true ↔
      ∃ p, hlsLeg envLicenseFail.hls2 = LegResult.ok p) ∧
    ((∀ p, hlsLeg envLicenseFail.hls2 ≠ LegResult.ok p) →
      (∃ ex2, (download envLicenseFail).outcome = Except.error ex2) ∧
      (download envLicenseFail).finalExists = false) :=
  license_failure_dash_behavior envLicenseFail .httpError rfl rfl rfl rfl

/-- Claim C4 as amended: each fallback edge is taken at most once and
every download() call enters at most three legs — at most one DASH leg
and at most two HLS legs.  With DASH primary, failure of the DASH leg
and of the HLS fallback terminates the call with an error.  With HLS
primary, failure of all three legs terminates the call with an error
after re-entering the HLS pipeline exactly once via the DASH-to-HLS
edge (lines 509-518). -/
theorem fallback_edges_bounded (env : DlEnv) :
    ((download env).trace = [Protocol.hls] ∨
      (download env).trace = [Protocol.dash] ∨
      (download env).trace = [Protocol.hls, Protocol.dash] ∨
      (download env).trace = [Protocol.dash, Protocol.hls] ∨
      (download env).trace = [Protocol.hls, Protocol.dash, Protocol.hls]) ∧
    edgeCount Protocol.hls Protocol.dash (download env).trace ≤ 1 ∧
    edgeCount Protocol.dash Protocol.hls (download env).trace ≤ 1 ∧
    List.count Protocol.dash (download env).trace ≤ 1 ∧
    List.count Protocol.hls (download env).trace ≤ 2 ∧
    (env.primary = Protocol.dash →
      legOk (dashLeg env.resolutionGiven env.dash).1 = false →
      legOk (hlsLeg env.hls2) = false →
      (∃ ex, (download env).outcome = Except.error ex) ∧
      (download env).trace = [Protocol.dash, Protocol.hls]) ∧
    (env.primary = Protocol.hls → legOk (hlsLeg env.hls1) = false →
      env.mpdRefetch = Except.ok () →
      legOk (dashLeg env.resolutionGiven env.dash).1 = false →
      legOk (hlsLeg env.hls2) = false →
      (∃ ex, (download env).outcome = Except.error ex) ∧
      (download env).trace = [Protocol.hls, Protocol.dash, Protocol.hls]) := by
  cases hp : env.primary <;>
    cases h1 : hlsLeg env.hls1 <;>
    cases hr : env.mpdRefetch <;>
    cases hd : (dashLeg env.resolutionGiven env.dash).1 <;>
    cases h2 : hlsLeg env.hls2 <;>
    simp [download, downloadDashPhase, edgeCount, legOk, hp, h1, hr, hd, h2]

/-- Truthiness of an optional string in Python: None and the empty
string are falsy. -/
def truthyOpt (s : Option String) : Bool :=
  match s with
  | some t => decide (t ≠ "")
  | none => false

/-- One EXT-X-MEDIA entry of the HLS master playlist as the m3u8
library reports it: type, group id, language, default and autoselect
flags, and an optional URI. -/
structure MediaEntry where
  mtype : String
  groupId : Option String
  language : Option String
  isDefault : Bool
  autoselect : Bool
  uri : Option String
deriving DecidableEq

/-- One top-level playlist entry of the HLS master: stream_info
resolution and bandwidth, its URI and its audio group attribute. -/
structure StreamInf where
  resolution : Option (ℕ × ℕ)
  bandwidth : Option ℕ
  uri : String
  audioGroup : Option String
deriving DecidableEq

/-- A parsed HLS master playlist: the playlists and media lists the
m3u8 parser exposes. -/
structure HlsMaster where
  playlists : List StreamInf
  media : List MediaEntry
deriving DecidableEq

/-- One selectable rendition as get_hls_variants returns it
(line 380): optional resolution, bandwidth, resolved video URI and
optional resolved audio URI. -/
structure Variant where
  resolution : Option (ℕ × ℕ)
  bandwidth : ℕ
  videoUri : String
  audioUri : Option String
deriving DecidableEq

/-- The URI resolution of urllib.parse.urljoin is an external
collaborator; the claims only depend on it being a function of the base
and the reference, so it is modelled as keeping an absolute reference
and prepending the base otherwise. -/
def urljoinModel (base ref : String) : String :=
  if "http".data.isPrefixOf ref.data then ref else base ++ ref

/-- setdefault(group, []).append(m) on an insertion-ordered mapping
(line 344). -/
def addToGroup (acc : List (String × List MediaEntry)) (g : String)
    (m : MediaEntry) : List (String × List MediaEntry) :=
  match acc with
  | [] => [(g, [m])]
  | (k, v) :: rest =>
    if k = g then (k, v ++ [m]) :: rest else (k, v) :: addToGroup rest g m

/-- audio_by_group (lines 341-344): AUDIO media entries with a truthy
group id, grouped by group id in insertion order. -/
def audioByGroup (media : List MediaEntry) : List (String × List MediaEntry) :=
  media.foldl (fun acc m =>
    if decide (m.mtype = "AUDIO") && truthyOpt m.groupId then
      addToGroup acc (m.groupId.getD "") m
    else acc) []

/-- _lang_rank (lines 347-355): rank 0 for an exact case-insensitive
match with the preferred language, 1 for a prefixed match, 2 otherwise;
then prefer default entries, then autoselect entries. -/
def langRank (pref : Option String) (x : MediaEntry) : ℕ × ℕ × ℕ :=
  let lang := x.language
  let exact := truthyOpt pref && truthyOpt lang &&
    decide ((lang.getD "").toLower = (pref.getD "").toLower)
  let pfx := truthyOpt pref && truthyOpt lang &&
    ((lang.getD "").toLower).startsWith ((pref.getD "").toLower)
  (if exact then 0 else if pfx then 1 else 2,
   if x.isDefault then 0 else 1,
   if x.autoselect then 0 else 1)

/-- Lexicographic comparison of _lang_rank triples, as the sorted(...)
call at lines 361 and 368 orders candidates. -/
def rankLe (pref : Option String) (a b : MediaEntry) : Bool :=
  decide ((langRank pref a).1 < (langRank pref b).1) ||
    (decide ((langRank pref a).1 = (langRank pref b).1) &&
      (decide ((langRank pref a).2.1 < (langRank pref b).2.1) ||
        (decide ((langRank pref a).2.1 = (langRank pref b).2.1) &&
          decide ((langRank pref a).2.2 ≤ (langRank pref b).2.2))))

/-- Selection of the best-ranked candidate with a truthy URI within one
media group (lines 358-362 and 366-369): filter entries with a URI,
stable-sort by rank, take the first, resolve against the master URL. -/
def pickInGroup (pref : Option String) (playlistUrl : String)
    (ms : List MediaEntry) : Option String :=
  let medias := ms.filter (fun m => truthyOpt m.uri)
  match (List.insertionSort (fun a b => rankLe pref a b = true) medias).head? with
  | some cand => some (urljoinModel playlistUrl (cand.uri.getD ""))
  | none => none

/-- pick_audio_uri_for_group (lines 346-370): use the group of the variant
when it is truthy and known; otherwise, when exactly one audio group
exists in the whole manifest, use it; otherwise no audio URI. -/
def pickAudioUriForGroup (pref : Option String) (playlistUrl : String)
    (groups : List (String × List MediaEntry)) (groupId : Option String) :
    Option String :=
  if truthyOpt groupId && (groups.lookup (groupId.getD "")).isSome then
    match groups.lookup (groupId.getD "") with
    | some ms => pickInGroup pref playlistUrl ms
    | none => none
  else if groups.length = 1 then
    match groups.head? with
    | some kv => pickInGroup pref playlistUrl kv.2
    | none => none
  else none

/-- Sort height of a variant: the declared height, or 0 when the
resolution is unknown (line 382). -/
def variantHeight (v : Variant) : ℕ :=
  match v.resolution with
  | some r => r.2
  | none => 0

/-- The sort order of line 382: ascending by (height-or-0, bandwidth),
compared lexicographically as Python compares key tuples. -/
def variantLe (a b : Variant) : Bool :=
  decide (variantHeight a < variantHeight b) ||
    (decide (variantHeight a = variantHeight b) &&
      decide (a.bandwidth ≤ b.bandwidth))

/-- get_hls_variants (lines 337-383): one Variant per playlists entry,
resolution and bandwidth extracted (a missing bandwidth becomes 0), the
video URI resolved against the master URL, the audio URI picked from
the audio groups, and the whole list stable-sorted ascending by
(height-or-0, bandwidth). -/
def getHlsVariants (pref : Option String) (playlistUrl : String)
    (pl : HlsMaster) : List Variant :=
  let groups := audioByGroup pl.media
  let variants := pl.playlists.map (fun v =>
    { resolution := v.resolution
      bandwidth := v.bandwidth.getD 0
      videoUri := urljoinModel playlistUrl v.uri
      audioUri := pickAudioUriForGroup pref playlistUrl groups v.audioGroup })
  List.insertionSort (fun a b => variantLe a b = true) variants

/-- _select_hls_variant_urls (lines 385-395): with no variants, the
master URL itself and no audio; with a desired resolution, the last
variant of the ascending list whose declared height is at most the
desired height, or the last variant overall when none qualifies; with
no desired resolution, the last variant overall. -/
def selectHlsVariantUrls (pref : Option String) (playlistUrl : String)
    (pl : HlsMaster) (desired : Option (ℕ × ℕ)) : String × Option String :=
  match getHlsVariants pref playlistUrl pl, desired with
  | [], _ => (playlistUrl, none)
  | v0 :: rest, some res =>
    let leq := (v0 :: rest).filter (fun v =>
      v.resolution.isSome && decide ((v.resolution.getD (0, 0)).2 ≤ res.2))
    let chosen := leq.getLastD ((v0 :: rest).getLastD v0)
    (chosen.videoUri, chosen.audioUri)
  | v0 :: rest, none =>
    let chosen := (v0 :: rest).getLastD v0
    (chosen.videoUri, chosen.audioUri)

theorem variantLe_refl (a : Variant) : variantLe a a = true := by
  simp [variantLe]

theorem variantLe_trans (a b c : Variant) (hab : variantLe a b = true)
    (hbc : variantLe b c = true) : variantLe a c = true := by
  simp only [variantLe, Bool.or_eq_true, Bool.and_eq_true,
    decide_eq_true_eq] at *
  omega

theorem variantLe_total (a b : Variant) :
    (variantLe a b || variantLe b a) = true := by
  simp only [variantLe, Bool.or_eq_true, Bool.and_eq_true,
    decide_eq_true_eq]
  omega

theorem variantLe_height_le {a b : Variant} (h : variantLe a b = true) :
    variantHeight a ≤ variantHeight b := by
  simp only [variantLe, Bool.or_eq_true, Bool.and_eq_true,
    decide_eq_true_eq] at h
  omega

instance : IsTrans Variant (fun a b => variantLe a b = true) :=
  ⟨fun a b c => variantLe_trans a b c⟩

instance : IsTotal Variant (fun a b => variantLe a b = true) :=
  ⟨fun a b => by
    have := variantLe_total a b
    simp only [Bool.or_eq_true] at this
    exact this⟩

/-- The sorted list produced by get_hls_variants is pairwise ordered by
the sort key. -/
theorem getHlsVariants_sorted (pref : Option String) (url : String)
    (pl : HlsMaster) :
    List.Pairwise (fun a b => variantLe a b = true)
      (getHlsVariants pref url pl) := by
  unfold getHlsVariants
  exact List.sorted_insertionSort _ _

theorem getHlsVariants_length (pref : Option String) (url : String)
    (pl : HlsMaster) :
    (getHlsVariants pref url pl).length = pl.playlists.length := by
  simp [getHlsVariants, List.length_insertionSort]

/-- Claim C6: for a master playlist declaring N variants, the variant
list has exactly N entries and is sorted non-decreasing by the key
(height-or-0, bandwidth), a variant with unknown resolution counting as
height 0. -/
theorem hls_variants_count_sorted (pref : Option String) (url : String)
    (pl : HlsMaster) :
    (getHlsVariants pref url pl).length = pl.playlists.length ∧
    List.Pairwise (fun a b => variantLe a b = true)
      (getHlsVariants pref url pl) ∧
    (∀ a b : Variant, variantLe a b = true ↔
      (variantHeight a < variantHeight b ∨
        (variantHeight a = variantHeight b ∧ a.bandwidth ≤ b.bandwidth))) ∧
    (∀ v : Variant, v.resolution = none → variantHeight v = 0) := by
  refine ⟨getHlsVariants_length pref url pl,
    getHlsVariants_sorted pref url pl, ?_, ?_⟩
  · intro a b
    simp [variantLe]
  · intro v hv
    simp [variantHeight, hv]

theorem getLastD_mem {α : Type} {l : List α} (hne : l ≠ []) (d : α) :
    l.getLastD d ∈ l := by
  induction l generalizing d with
  | nil => exact absurd rfl hne
  | cons x t ih =>
    cases t with
    | nil => simp
    | cons y t2 =>
      rw [List.getLastD_cons]
      exact List.mem_cons_of_mem x (ih (by simp) y)

theorem pairwise_getLastD_max {α : Type} {le : α → α → Bool}
    (hrefl : ∀ a, le a a = true) {l : List α}
    (hp : List.Pairwise (fun a b => le a b = true) l) (d : α) :
    ∀ a ∈ l, le a (l.getLastD d) = true := by
  induction l generalizing d with
  | nil => intro a ha; simp at ha
  | cons x t ih =>
    cases t with
    | nil =>
      intro a ha
      simp at ha
      subst ha
      simpa using hrefl a
    | cons y t2 =>
      intro a ha
      rw [List.getLastD_cons]
      rcases List.mem_cons.mp ha with rfl | hmem
      · have hlast : (y :: t2).getLastD a ∈ y :: t2 :=
          getLastD_mem (by simp) a
        exact (List.pairwise_cons.mp hp).1 _ hlast
      · exact ih (List.pairwise_cons.mp hp).2 x a hmem

/-- Claim C5: variant selection returns the master URL itself with no
audio when the variant list is empty; with a desired height, a variant
of the greatest declared height at most that height when one exists,
and the overall highest variant otherwise; and the overall highest
variant when no resolution is desired. -/
theorem select_variant_spec (pref : Option String) (url : String)
    (pl : HlsMaster) (w h : ℕ) :
    ((getHlsVariants pref url pl = [] ↔ pl.playlists = []) ∧
      (getHlsVariants pref url pl = [] →
        selectHlsVariantUrls pref url pl (some (w, h)) = (url, none) ∧
        selectHlsVariantUrls pref url pl none = (url, none))) ∧
    (getHlsVariants pref url pl ≠ [] →
      ∃ c ∈ getHlsVariants pref url pl,
        selectHlsVariantUrls pref url pl none = (c.videoUri, c.audioUri) ∧
        ∀ v ∈ getHlsVariants pref url pl, variantLe v c = true) ∧
    ((∃ v ∈ getHlsVariants pref url pl, ∃ r, v.resolution = some r ∧ r.2 ≤ h) →
      ∃ c ∈ getHlsVariants pref url pl, ∃ rc, c.resolution = some rc ∧
        rc.2 ≤ h ∧
        selectHlsVariantUrls pref url pl (some (w, h)) =
          (c.videoUri, c.audioUri) ∧
        ∀ v ∈ getHlsVariants pref url pl, ∀ r, v.resolution = some r →
          r.2 ≤ h → r.2 ≤ rc.2) ∧
    (getHlsVariants pref url pl ≠ [] →
      (¬ ∃ v ∈ getHlsVariants pref url pl, ∃ r, v.resolution = some r ∧
        r.2 ≤ h) →
      ∃ c ∈ getHlsVariants pref url pl,
        selectHlsVariantUrls pref url pl (some (w, h)) =
          (c.videoUri, c.audioUri) ∧
        ∀ v ∈ getHlsVariants pref url pl, variantLe v c = true) := by
  have hsorted := getHlsVariants_sorted pref url pl
  refine ⟨⟨?_, ?_⟩, ?_, ?_, ?_⟩
  · constructor
    · intro he
      have hlen := getHlsVariants_length pref url pl
      rw [he] at hlen
      simp only [List.length_nil] at hlen
      exact List.length_eq_zero.mp hlen.symm
    · intro he
      have hlen := getHlsVariants_length pref url pl
      rw [he] at hlen
      simp only [List.length_nil] at hlen
      exact List.length_eq_zero.mp hlen
  · intro he
    exact ⟨by simp [selectHlsVariantUrls, he], by simp [selectHlsVariantUrls, he]⟩
  · intro hne
    cases hv : getHlsVariants pref url pl with
    | nil => exact absurd hv hne
    | cons v0 rest =>
      rw [hv] at hsorted
      refine ⟨(v0 :: rest).getLastD v0, getLastD_mem (by simp) v0, ?_, ?_⟩
      · simp only [selectHlsVariantUrls, hv]
      · intro v hvmem
        exact pairwise_getLastD_max variantLe_refl hsorted v0 v hvmem
  · rintro ⟨v, hvmem, r, hvres, hrle⟩
    cases hv : getHlsVariants pref url pl with
    | nil => rw [hv] at hvmem; simp at hvmem
    | cons v0 rest =>
      rw [hv] at hvmem hsorted
      have hpv : (fun x : Variant => x.resolution.isSome &&
          decide ((x.resolution.getD (0, 0)).2 ≤ h)) v = true := by
        simp [hvres, hrle]
      have hvleq : v ∈ (v0 :: rest).filter (fun x : Variant =>
          x.resolution.isSome && decide ((x.resolution.getD (0, 0)).2 ≤ h)) :=
        List.mem_filter.mpr ⟨hvmem, hpv⟩
      have hleqne : (v0 :: rest).filter (fun x : Variant =>
          x.resolution.isSome && decide ((x.resolution.getD (0, 0)).2 ≤ h)) ≠
          [] := by
        intro hnil
        rw [hnil] at hvleq
        simp at hvleq
      have hcmem_leq := getLastD_mem hleqne ((v0 :: rest).getLastD v0)
      have hcmem := List.mem_of_mem_filter hcmem_leq
      have hcprop := List.of_mem_filter hcmem_leq
      simp only [Bool.and_eq_true, decide_eq_true_eq] at hcprop
      obtain ⟨rc, hrc⟩ := Option.isSome_iff_exists.mp hcprop.1
      have hrch : rc.2 ≤ h := by
        have := hcprop.2
        rw [hrc] at this
        simpa using this
      refine ⟨((v0 :: rest).filter (fun x : Variant =>
          x.resolution.isSome &&
            decide ((x.resolution.getD (0, 0)).2 ≤ h))).getLastD
          ((v0 :: rest).getLastD v0), hcmem, rc, hrc, hrch, ?_, ?_⟩
      · simp only [selectHlsVariantUrls, hv]
      · intro vv hvvmem rr hvvres hvvle
        have hvvleq : vv ∈ (v0 :: rest).filter (fun x : Variant =>
            x.resolution.isSome &&
              decide ((x.resolution.getD (0, 0)).2 ≤ h)) :=
          List.mem_filter.mpr ⟨hvvmem, by simp [hvvres, hvvle]⟩
        have hle2 := pairwise_getLastD_max variantLe_refl
          (List.Pairwise.filter _ hsorted) ((v0 :: rest).getLastD v0)
          vv hvvleq
        have hh := variantLe_height_le hle2
        have h1 : variantHeight vv = rr.2 := by simp [variantHeight, hvvres]
        have h2 : variantHeight (((v0 :: rest).filter (fun x : Variant =>
            x.resolution.isSome &&
              decide ((x.resolution.getD (0, 0)).2 ≤ h))).getLastD
            ((v0 :: rest).getLastD v0)) = rc.2 := by
          unfold variantHeight
          rw [hrc]
        rw [h1, h2] at hh
        exact hh
  · intro hne hno
    cases hv : getHlsVariants pref url pl with
    | nil => exact absurd hv hne
    | cons v0 rest =>
      rw [hv] at hsorted hno
      have hleq_nil : (v0 :: rest).filter (fun x : Variant =>
          x.resolution.isSome && decide ((x.resolution.getD (0, 0)).2 ≤ h)) =
          [] := by
        by_contra hnn
        obtain ⟨x, hx⟩ := List.exists_mem_of_ne_nil _ hnn
        have hxmem := List.mem_of_mem_filter hx
        have hxp := List.of_mem_filter hx
        simp only [Bool.and_eq_true, decide_eq_true_eq] at hxp
        obtain ⟨rx, hrx⟩ := Option.isSome_iff_exists.mp hxp.1
        apply hno
        refine ⟨x, hxmem, rx, hrx, ?_⟩
        have := hxp.2
        rw [hrx] at this
        simpa using this
      refine ⟨(v0 :: rest).getLastD v0, getLastD_mem (by simp) v0, ?_, ?_⟩
      · simp only [selectHlsVariantUrls, hv, hleq_nil]
        rfl
      · intro vv hvvmem
        exact pairwise_getLastD_max variantLe_refl hsorted v0 vv hvvmem

/-- Outcome of one GET attempt inside _fetch_segment: the body is
written and the function returns, a ChunkedEncodingError is swallowed
and the loop retries, or some other exception propagates. -/
inductive AttemptResult where
  | success
  | chunkedError
  | otherError (ex : Exc)
deriving DecidableEq

/-- The message of the SegmentDownloadError raised at line 277. -/
def segmentErrorMessage (uri : String) : String :=
  "Failed to download segment " ++ uri

/-- The retry loop of _fetch_segment (lines 263-277): the environment
gives the outcome of each attempt by index; the result is paired with
the number of attempts actually made.  After the loop body has run 5
times without returning, SegmentDownloadError is raised. -/
def fetchSegmentGo (uri : String) (env : ℕ → AttemptResult) :
    ℕ → ℕ → Except Exc Unit × ℕ
  | 0, _ => (.error (.segmentDownload uri), 0)
  | fuel + 1, i =>
    match env i with
    | .success => (.ok (), 1)
    | .otherError ex => (.error ex, 1)
    | .chunkedError =>
      let r := fetchSegmentGo uri env fuel (i + 1)
      (r.1, r.2 + 1)

/-- _fetch_segment: for _ in range(5) around one GET per attempt. -/
def fetchSegment (uri : String) (env : ℕ → AttemptResult) :
    Except Exc Unit × ℕ :=
  fetchSegmentGo uri env 5 0

/-- The deduplication of _fetch_segments (line 283): keep the segment
at position i iff it is truthy (non-empty) and i is the first index at
which that URI occurs in the list. -/
def dedupSegments (l : List String) : List String :=
  (l.enum.filter (fun p => decide (p.2 ≠ "") &&
    decide (List.indexOf p.2 l = p.1))).map Prod.snd

/-- The fetch loop of _fetch_segments (lines 290-292) over an already
deduplicated list, recording which segment URIs were requested; the
first failing segment aborts the whole operation. -/
def fetchSegmentsGo (env : String → ℕ → AttemptResult) :
    List String → Except Exc Unit × List String
  | [] => (.ok (), [])
  | s :: t =>
    match (fetchSegment s (env s)).1 with
    | .ok () =>
      let r := fetchSegmentsGo env t
      (r.1, s :: r.2)
    | .error ex => (.error ex, [s])

/-- _fetch_segments (lines 279-292): deduplicate, then fetch each kept
segment in order. -/
def fetchSegments (l : List String) (env : String → ℕ → AttemptResult) :
    Except Exc Unit × List String :=
  fetchSegmentsGo env (dedupSegments l)

theorem fetchSegmentGo_le (uri : String) (env : ℕ → AttemptResult) :
    ∀ fuel i, (fetchSegmentGo uri env fuel i).2 ≤ fuel := by
  intro fuel
  induction fuel with
  | zero => intro i; simp [fetchSegmentGo]
  | succ n ih =>
    intro i
    cases h : env i
    · simp only [fetchSegmentGo, h]
      omega
    · simp only [fetchSegmentGo, h]
      have := ih (i + 1)
      omega
    · simp only [fetchSegmentGo, h]
      omega

theorem fetchSegmentGo_all_chunked (uri : String) (env : ℕ → AttemptResult) :
    ∀ fuel i, (∀ j, j < fuel → env (i + j) = .chunkedError) →
    fetchSegmentGo uri env fuel i = (.error (.segmentDownload uri), fuel) := by
  intro fuel
  induction fuel with
  | zero => intro i _; rfl
  | succ n ih =>
    intro i h
    have h0 : env i = .chunkedError := by simpa using h 0 (Nat.succ_pos n)
    have hrec := ih (i + 1) (fun j hj => by
      have := h (j + 1) (by omega)
      rw [show i + 1 + j = i + (j + 1) by omega]
      exact this)
    simp [fetchSegmentGo, h0, hrec]

theorem fetchSegmentGo_first_stop (uri : String) (env : ℕ → AttemptResult) :
    ∀ k fuel i, k < fuel → (∀ j, j < k → env (i + j) = .chunkedError) →
    ((env (i + k) = .success →
        fetchSegmentGo uri env fuel i = (.ok (), k + 1)) ∧
      (∀ ex, env (i + k) = .otherError ex →
        fetchSegmentGo uri env fuel i = (.error ex, k + 1))) := by
  intro k
  induction k with
  | zero =>
    intro fuel i hk _
    cases fuel with
    | zero => omega
    | succ n =>
      constructor
      · intro hs
        simp only [Nat.add_zero] at hs
        simp [fetchSegmentGo, hs]
      · intro ex hs
        simp only [Nat.add_zero] at hs
        simp [fetchSegmentGo, hs]
  | succ m ih =>
    intro fuel i hk hch
    cases fuel with
    | zero => omega
    | succ n =>
      have h0 : env i = .chunkedError := by
        simpa using hch 0 (Nat.succ_pos m)
      have hch2 : ∀ j, j < m → env (i + 1 + j) = .chunkedError := by
        intro j hj
        rw [show i + 1 + j = i + (j + 1) by omega]
        exact hch (j + 1) (by omega)
      have hrec := ih n (i + 1) (by omega) hch2
      constructor
      · intro hs
        have hs2 : env (i + 1 + m) = .success := by
          rw [show i + 1 + m = i + (m + 1) by omega]
          exact hs
        simp [fetchSegmentGo, h0, hrec.1 hs2]
      · intro ex hs
        have hs2 : env (i + 1 + m) = .otherError ex := by
          rw [show i + 1 + m = i + (m + 1) by omega]
          exact hs
        simp [fetchSegmentGo, h0, hrec.2 ex hs2]

theorem dedupSegments_pairwise (l : List String) :
    List.Pairwise (fun s t => List.indexOf s l < List.indexOf t l)
      (dedupSegments l) := by
  unfold dedupSegments
  rw [List.pairwise_map]
  have h1 : List.Pairwise (fun a b : ℕ × String => a.1 < b.1) l.enum := by
    have h2 : List.Pairwise (· < ·) (l.enum.map Prod.fst) := by
      rw [List.enum_map_fst]
      exact List.pairwise_lt_range _
    exact List.pairwise_map.mp h2
  have h3 := List.Pairwise.filter (fun p : ℕ × String =>
    decide (p.2 ≠ "") && decide (List.indexOf p.2 l = p.1)) h1
  refine List.Pairwise.imp_of_mem ?_ h3
  intro a b ha hb hab
  have hpa := List.of_mem_filter ha
  have hpb := List.of_mem_filter hb
  simp only [Bool.and_eq_true, decide_eq_true_eq] at hpa hpb
  rw [hpa.2, hpb.2]
  exact hab

theorem dedupSegments_mem (l : List String) (s : String) :
    s ∈ dedupSegments l ↔ (s ∈ l ∧ s ≠ "") := by
  unfold dedupSegments
  constructor
  · intro hs
    obtain ⟨⟨i, x⟩, hpmem, hps⟩ := List.mem_map.mp hs
    have hpenum := List.mem_of_mem_filter hpmem
    have hpp := List.of_mem_filter hpmem
    simp only [Bool.and_eq_true, decide_eq_true_eq] at hpp
    have hget := List.mk_mem_enum_iff_getElem?.mp hpenum
    have hxl : x ∈ l := List.getElem?_mem hget
    simp only at hps
    subst hps
    exact ⟨hxl, hpp.1⟩
  · rintro ⟨hmem, hne⟩
    apply List.mem_map.mpr
    refine ⟨(List.indexOf s l, s), ?_, rfl⟩
    apply List.mem_filter.mpr
    refine ⟨?_, ?_⟩
    · apply List.mk_mem_enum_iff_getElem?.mpr
      have hlt := List.indexOf_lt_length.mpr hmem
      rw [List.getElem?_eq_getElem hlt, List.getElem_indexOf]
    · simp [hne]

theorem fetchSegmentsGo_all_success (env : String → ℕ → AttemptResult)
    (henv : ∀ s i, env s i = .success) :
    ∀ lst, fetchSegmentsGo env lst = (.ok (), lst) := by
  intro lst
  induction lst with
  | nil => rfl
  | cons s t ih =>
    have hseg : (fetchSegment s (env s)).1 = .ok () := by
      simp [fetchSegment, fetchSegmentGo, henv s 0]
    simp [fetchSegmentsGo, hseg, ih]

/-- Claim C7 counterexample: the requested list is not simply the input
with duplicates collapsed to first occurrences — line 283 also drops
falsy (empty) URIs, so an input containing an empty URI yields a
requested list that differs from the first-occurrence collapse of the
input. -/
theorem dedup_drops_empty_cex :
    dedupSegments ["", "a"] = ["a"] ∧
    dedupSegments ["", "a"] ≠ ["", "a"] ∧
    dedupSegments ["a", "b", "a", "c", "c"] = ["a", "b", "c"] := by
  decide

/-- Claim C7 as amended: each segment is fetched with at most 5
attempts; only a transient chunked-transfer failure is retried, any
other exception propagates after the attempt that hits it; exhausting
all 5 attempts raises a SegmentDownloadError carrying the failed URI;
and the requested list is the input with empty URIs dropped and
duplicates collapsed to their first occurrence, order preserved. -/
theorem fetch_segment_retry_spec (uri : String) (env : ℕ → AttemptResult)
    (envs : String → ℕ → AttemptResult) (l : List String) (k : ℕ)
    (ex : Exc) :
    ((fetchSegment uri env).2 ≤ 5) ∧
    ((∀ i, i < 5 → env i = .chunkedError) →
      fetchSegment uri env = (.error (.segmentDownload uri), 5)) ∧
    (k < 5 → (∀ j, j < k → env j = .chunkedError) →
      env k = .otherError ex →
      fetchSegment uri env = (.error ex, k + 1)) ∧
    (k < 5 → (∀ j, j < k → env j = .chunkedError) → env k = .success →
      fetchSegment uri env = (.ok (), k + 1)) ∧
    ((∀ s i, envs s i = .success) →
      (fetchSegments l envs).2 = dedupSegments l) ∧
    (∀ s, s ∈ dedupSegments l ↔ (s ∈ l ∧ s ≠ "")) ∧
    List.Pairwise (fun s t => List.indexOf s l < List.indexOf t l)
      (dedupSegments l) ∧
    segmentErrorMessage uri = "Failed to download segment " ++ uri := by
  refine ⟨fetchSegmentGo_le uri env 5 0, ?_, ?_, ?_, ?_,
    fun s => dedupSegments_mem l s, dedupSegments_pairwise l, rfl⟩
  · intro hch
    exact fetchSegmentGo_all_chunked uri env 5 0
      (fun j hj => by simpa using hch j hj)
  · intro hk hch hs
    have := (fetchSegmentGo_first_stop uri env k 5 0 hk
      (fun j hj => by simpa using hch j hj)).2 ex (by simpa using hs)
    exact this
  · intro hk hch hs
    exact (fetchSegmentGo_first_stop uri env k 5 0 hk
      (fun j hj => by simpa using hch j hj)).1 (by simpa using hs)
  · intro hsucc
    simp [fetchSegments, fetchSegmentsGo_all_success envs hsucc]

/-- One DASH representation as the mpegdash parser exposes it: optional
width and height, and segment lists whose segment URLs have optional
media attributes. -/
structure DashRepresentation where
  width : Option ℕ
  height : Option ℕ
  segmentLists : List (List (Option String))
deriving DecidableEq

/-- One DASH adaptation set: mime type and representations. -/
structure AdaptationSet where
  mimeType : String
  representations : List DashRepresentation
deriving DecidableEq

/-- One DASH period. -/
structure MpdPeriod where
  adaptationSets : List AdaptationSet
deriving DecidableEq

/-- A parsed DASH MPD document. -/
structure MpdMaster where
  periods : List MpdPeriod
deriving DecidableEq

/-- Python list.index: index of the first occurrence of the value, a
ValueError when it is absent. -/
def pyIndex (xs : List (Option ℕ × Option ℕ))
    (target : Option ℕ × Option ℕ) : Except Exc ℕ :=
  match xs with
  | [] => .error .valueError
  | x :: t =>
    if x = target then .ok 0
    else (pyIndex t target).map (· + 1)

/-- Python truthiness of representations[0].height: None and 0 are
falsy. -/
def pyTruthyHeight (r : DashRepresentation) : Bool :=
  match r.height with
  | some hh => decide (hh ≠ 0)
  | none => false

/-- The per-adaptation-set lookup of _get_segments_urls
(lines 296-301): the representation index is the .index of the
requested (width, height) only when the FIRST representation of the
set has a truthy height; otherwise index 0 is used unconditionally.
Subscripting an empty representations list or an empty segment_lists
raises IndexError; segment URLs whose media is None are dropped. -/
def getSegmentsUrlsSet (resolution : ℕ × ℕ) (a : AdaptationSet) :
    Except Exc (List String) :=
  match a.representations with
  | [] => .error .indexError
  | r0 :: _ =>
    let idxE : Except Exc ℕ :=
      if pyTruthyHeight r0 then
        pyIndex (a.representations.map (fun r => (r.width, r.height)))
          (some resolution.1, some resolution.2)
      else .ok 0
    match idxE with
    | .error e => .error e
    | .ok i =>
      match a.representations[i]? with
      | none => .error .indexError
      | some rep =>
        match rep.segmentLists with
        | [] => .error .indexError
        | sl :: _ => .ok (sl.filterMap id)

/-- The dict comprehension of lines 296-303, one entry per adaptation
set of period 0, stopping at the first exception. -/
def collectSets (resolution : ℕ × ℕ) :
    List AdaptationSet → Except Exc (List (String × List String))
  | [] => .ok []
  | a :: rest =>
    match getSegmentsUrlsSet resolution a with
    | .error e => .error e
    | .ok urls =>
      match collectSets resolution rest with
      | .error e => .error e
      | .ok restEntries => .ok ((a.mimeType, urls) :: restEntries)

/-- _get_segments_urls (lines 294-305): run the comprehension over the
adaptation sets of period 0; a ValueError from .index becomes
InvalidResolution (the except clause catches only ValueError), any
other exception propagates unchanged. -/
def getSegmentsUrls (mpd : MpdMaster) (resolution : ℕ × ℕ) :
    Except Exc (List (String × List String)) :=
  match mpd.periods with
  | [] => .error .indexError
  | p :: _ =>
    match collectSets resolution p.adaptationSets with
    | .ok l => .ok l
    | .error .valueError => .error .invalidResolution
    | .error e => .error e

theorem pyIndex_not_found (target : Option ℕ × Option ℕ) :
    ∀ xs : List (Option ℕ × Option ℕ), (∀ x ∈ xs, x ≠ target) →
    pyIndex xs target = .error .valueError := by
  intro xs
  induction xs with
  | nil => intro _; rfl
  | cons x t ih =>
    intro h
    have hx : ¬ x = target := h x (by simp)
    rw [pyIndex, if_neg hx, ih (fun y hy => h y (by simp [hy]))]
    rfl

theorem pyIndex_found (target : Option ℕ × Option ℕ) :
    ∀ xs : List (Option ℕ × Option ℕ), target ∈ xs →
    ∃ i, pyIndex xs target = .ok i ∧ xs[i]? = some target := by
  intro xs
  induction xs with
  | nil => intro h; simp at h
  | cons x t ih =>
    intro h
    by_cases hx : x = target
    · exact ⟨0, by rw [pyIndex, if_pos hx], by simp [hx]⟩
    · have hyt : target ∈ t := by
        rcases List.mem_cons.mp h with rfl | hm
        · exact absurd rfl hx
        · exact hm
      obtain ⟨i, hpi, hget⟩ := ih hyt
      refine ⟨i + 1, ?_, ?_⟩
      · rw [pyIndex, if_neg hx, hpi]
        rfl
      · simpa using hget

/-- A video adaptation set whose single representation matches
1920x1080. -/
def videoSetEx : AdaptationSet :=
  { mimeType := "video/mp4"
    representations := [
      { width := some 1920, height := some 1080
        segmentLists := [[some "v1.m4s", some "v2.m4s"]] }] }

/-- An audio adaptation set whose representations declare no
resolution at all. -/
def audioSetEx : AdaptationSet :=
  { mimeType := "audio/mp4"
    representations := [
      { width := none, height := none
        segmentLists := [[some "a1.m4s"]] },
      { width := none, height := none
        segmentLists := [[some "b1.m4s"]] }] }

/-- A DASH manifest with the two adaptation sets above. -/
def mpdAudioNoHeight : MpdMaster :=
  { periods := [{ adaptationSets := [videoSetEx, audioSetEx] }] }

/-- Claim C8 counterexample: no representation of the audio adaptation
set has (width, height) equal to the requested (1920, 1080), yet the
lookup does not fail with InvalidResolution — because the guard of the
index expression inspects the height of the first representation, the
first representation of the audio set is selected unconditionally. -/
theorem segments_guard_cex :
    getSegmentsUrls mpdAudioNoHeight (1920, 1080) =
      .ok [("video/mp4", ["v1.m4s", "v2.m4s"]), ("audio/mp4", ["a1.m4s"])] ∧
    audioSetEx.representations.all
      (fun r => decide ((r.width, r.height) ≠
        (some 1920, some 1080))) = true ∧
    getSegmentsUrlsSet (1920, 1080) audioSetEx = .ok ["a1.m4s"] := by
  decide

/-- Claim C8 as amended: in an adaptation set whose first
representation declares a truthy height, the segment lookup selects the
first representation whose (width, height) equals the requested
resolution exactly and fails with a ValueError, converted to
InvalidResolution at the top level, when none matches; in a set whose
first representation has no truthy height (e.g. audio sets), the first
representation is selected unconditionally, whatever the requested
resolution. -/
theorem segments_lookup_behavior (resolution : ℕ × ℕ) (a : AdaptationSet)
    (r0 : DashRepresentation) (rest : List DashRepresentation)
    (mpd : MpdMaster) (p : MpdPeriod) (ps : List MpdPeriod) :
    (a.representations = r0 :: rest → pyTruthyHeight r0 = false →
      getSegmentsUrlsSet resolution a =
        (match r0.segmentLists with
          | [] => .error .indexError
          | sl :: _ => .ok (sl.filterMap id))) ∧
    (a.representations = r0 :: rest → pyTruthyHeight r0 = true →
      (∀ r ∈ a.representations,
        (r.width, r.height) ≠ (some resolution.1, some resolution.2)) →
      getSegmentsUrlsSet resolution a = .error .valueError) ∧
    (a.representations = r0 :: rest → pyTruthyHeight r0 = true →
      (∃ r ∈ a.representations,
        (r.width, r.height) = (some resolution.1, some resolution.2)) →
      ∃ i : ℕ, ∃ rep : DashRepresentation, a.representations[i]? = some rep ∧
        (rep.width, rep.height) = (some resolution.1, some resolution.2) ∧
        getSegmentsUrlsSet resolution a =
          (match rep.segmentLists with
            | [] => .error .indexError
            | sl :: _ => .ok (sl.filterMap id))) ∧
    (mpd.periods = p :: ps →
      collectSets resolution p.adaptationSets = .error .valueError →
      getSegmentsUrls mpd resolution = .error .invalidResolution) := by
  refine ⟨?_, ?_, ?_, ?_⟩
  · intro hrep hth
    simp only [getSegmentsUrlsSet, hrep, hth]
    simp
  · intro hrep hth hno
    have hpy : pyIndex (a.representations.map
        (fun r => (r.width, r.height)))
        (some resolution.1, some resolution.2) = .error .valueError := by
      apply pyIndex_not_found
      intro x hx
      obtain ⟨r, hrmem, hrx⟩ := List.mem_map.mp hx
      rw [← hrx]
      exact hno r hrmem
    simp only [getSegmentsUrlsSet, hrep, hth]
    rw [← hrep]
    simp [hpy]
  · intro hrep hth hex
    obtain ⟨r, hrmem, hr⟩ := hex
    have hmem : (some resolution.1, some resolution.2) ∈
        a.representations.map (fun r => (r.width, r.height)) := by
      apply List.mem_map.mpr
      exact ⟨r, hrmem, hr⟩
    obtain ⟨i, hpi, hget⟩ := pyIndex_found _ _ hmem
    have hrep_get : ∃ rep : DashRepresentation,
        a.representations[i]? = some rep ∧
        (rep.width, rep.height) = (some resolution.1, some resolution.2) := by
      rw [List.getElem?_map] at hget
      cases hgr : a.representations[i]? with
      | none => rw [hgr] at hget; simp at hget
      | some rep =>
        rw [hgr] at hget
        simp at hget
        exact ⟨rep, rfl, by rw [hget.1, hget.2]⟩
    obtain ⟨rep, hgr, hwh⟩ := hrep_get
    refine ⟨i, rep, hgr, hwh, ?_⟩
    simp only [getSegmentsUrlsSet, hrep, hth]
    rw [← hrep]
    simp [hpi, hgr]
  · intro hper hcoll
    simp only [getSegmentsUrls, hper, hcoll]

/-- Result of a finished subprocess: its exit code and the captured
diagnostic lines. -/
structure ProcResult where
  exitCode : Int
  stderrLines : List String
deriving DecidableEq

/-- The last n diagnostic lines, as readlines()[-20:] takes them. -/
def lastLines (n : ℕ) (ls : List String) : List String :=
  ls.drop (ls.length - n)

/-- End of _download_hls_via_ffmpeg (lines 215-228): a nonzero ffmpeg
exit deletes the partial output file and raises a RuntimeError carrying
the last 20 stderr lines; a zero exit returns normally.  The Bool
records whether the partial output was deleted. -/
def hlsFfmpegOutcome (proc : ProcResult) : Except Exc Unit × Bool :=
  if proc.exitCode ≠ 0 then
    (.error (.subprocess proc.exitCode (lastLines 20 proc.stderrLines)),
      true)
  else (.ok (), false)

/-- _merge_tracks (lines 111-125): Popen(...).communicate() with no
exit-code inspection; only a missing ffmpeg binary raises
(FFmpegNotFoundError) and nothing is deleted. -/
def mergeTracksOutcome (binaryMissing : Bool) (_proc : ProcResult) :
    Except Exc Unit × Bool :=
  if binaryMissing then (.error .ffmpegNotFound, false)
  else (.ok (), false)

/-- _decrypt_video (lines 230-242): Popen(...).communicate() with no
exit-code inspection; only a missing mp4decrypt binary raises
(Mp4DecryptNotFoundError) and nothing is deleted. -/
def decryptVideoOutcome (binaryMissing : Bool) (_proc : ProcResult) :
    Except Exc Unit × Bool :=
  if binaryMissing then (.error .mp4decryptNotFound, false)
  else (.ok (), false)

/-- Claim C3 counterexample: the track merger and the decryptor ignore
a nonzero subprocess exit code — with the binary present they return
success, raise nothing, surface no diagnostic output and delete no
partial file. -/
theorem merge_ignores_exit_cex :
    mergeTracksOutcome false ⟨1, ["merge failed"]⟩ = (.ok (), false) ∧
    decryptVideoOutcome false ⟨1, ["decrypt failed"]⟩ = (.ok (), false) ∧
    (1 : Int) ≠ 0 := by
  decide

/-- Claim C3 as amended: only the HLS muxer invocation checks the
subprocess exit code — a nonzero exit there deletes the partial output
and raises an error carrying the last 20 diagnostic lines (a suffix of
the diagnostic stream); the merger and decryptor invocations ignore the
exit code entirely and fail only when their binary is missing, deleting
nothing. -/
theorem subprocess_failure_behavior (proc : ProcResult) :
    (proc.exitCode ≠ 0 → hlsFfmpegOutcome proc =
      (.error (.subprocess proc.exitCode (lastLines 20 proc.stderrLines)),
        true)) ∧
    (proc.exitCode = 0 → hlsFfmpegOutcome proc = (.ok (), false)) ∧
    mergeTracksOutcome false proc = (.ok (), false) ∧
    decryptVideoOutcome false proc = (.ok (), false) ∧
    mergeTracksOutcome true proc = (.error .ffmpegNotFound, false) ∧
    decryptVideoOutcome true proc = (.error .mp4decryptNotFound, false) ∧
    (lastLines 20 proc.stderrLines).length ≤ 20 ∧
    List.IsSuffix (lastLines 20 proc.stderrLines) proc.stderrLines := by
  refine ⟨?_, ?_, rfl, rfl, rfl, rfl, ?_, ?_⟩
  · intro hnz
    simp [hlsFfmpegOutcome, hnz]
  · intro hz
    simp [hlsFfmpegOutcome, hz]
  · simp only [lastLines, List.length_drop]
    omega
  · exact List.drop_suffix _ _

/-- A concrete three-variant master playlist matching the end-to-end
scenario of the specification (heights 360, 720, 1080). -/
def masterEx : HlsMaster :=
  { playlists := [
      ⟨some (640, 360), some 800000, "v360.m3u8", none⟩,
      ⟨some (1920, 1080), some 5000000, "v1080.m3u8", none⟩,
      ⟨some (1280, 720), some 2500000, "v720.m3u8", none⟩]
    media := [] }

/-- Concrete runs of the variant selection: best quality picks the
1080 variant; a desired 720 picks the 720 variant; a desired height
below every variant falls back to the overall highest. -/
theorem select_variant_sanity :
    selectHlsVariantUrls none "base/" masterEx none =
      ("base/v1080.m3u8", none) ∧
    selectHlsVariantUrls none "base/" masterEx (some (1280, 720)) =
      ("base/v720.m3u8", none) ∧
    selectHlsVariantUrls none "base/" masterEx (some (0, 200)) =
      ("base/v1080.m3u8", none) := by
  decide

/-- Concrete run of the DASH lookup on a resolution no representation
declares: the first adaptation set has a truthy first height, so the
failed .index is converted into InvalidResolution. -/
theorem segments_invalid_resolution_sanity :
    getSegmentsUrls mpdAudioNoHeight (640, 480) =
      .error .invalidResolution := by
  decide
